import Mathlib

/-!
Verification of the resumable Aptos transaction streaming examples
(`src/examples/00_basic.ts`, `src/examples/01_sqlite.ts`).

The repository slice holds two usage examples of a streaming client
`streamTransactions` (the client itself is imported from outside the
slice).  We embed:

* the data model: the four-variant `StreamEvent` union and transactions
  carrying a `version` (TS `bigint`, embedded as `Int`);
* the SQLite-backed resumable generator `streamAndPersistTransactions`
  of `01_sqlite.ts`, as an explicit pull-based state machine: each
  `next()` call first performs the checkpoint upsert left pending by the
  previously yielded event (the code after `yield event` runs only when
  the caller pulls again), then yields the next event and records its
  pending upsert;
* the driver loop at the bottom of `01_sqlite.ts` (chain-id check,
  first/last version access) as `callerLoop`.

`streamTransactions` itself is not in the slice; where a claim depends
on its behaviour we model that behaviour from the spec (definitions
marked `Modelled from the spec:`).
-/

/-- A transaction as the examples use it: only its `version` field is read
(`event.transactions[i].version!`, a TS `bigint`, embedded as `Int`; the
`!` non-null assertion is erased, the field is embedded as present). -/
structure Transaction where
  version : Int
  deriving DecidableEq, Repr

/-- The discriminated event union the examples switch on
(`event.type` ∈ {"data", "error", "metadata", "status"}).  `chainId` is a
TS `bigint`; the error/metadata/status payloads are only ever passed to
`console.*`, so they are embedded as opaque strings. -/
inductive StreamEvent where
  | data (chainId : Int) (transactions : List Transaction)
  | error (err : String)
  | metadata (md : String)
  | status (st : String)
  deriving DecidableEq, Repr

/-- Whether an event is a Data event (`event.type === "data"`). -/
def StreamEvent.isData : StreamEvent → Bool
  | .data _ _ => true
  | _ => false

/-- A value stored in the SQLite `kv` table's `v` column.  The query in
`01_sqlite.ts` is typed `{ v: string | number | bigint }`; `num` covers
integral JS numbers (with `safeIntegers: true` integers come back as
`bigint`, but the type annotation admits `number`). -/
inductive SqlVal where
  | str (s : String)
  | num (n : Int)
  | big (n : Int)
  deriving DecidableEq, Repr

/-- The checkpoint store: the single `kv` row under key
`'startingVersion'`, `none` when the row is absent. -/
abbrev KvStore := Option SqlVal

/-- Decimal value of a digit character, if it is one. -/
def digitVal? (c : Char) : Option Nat :=
  if 48 ≤ c.toNat ∧ c.toNat ≤ 57 then some (c.toNat - 48) else none

/-- Accumulate a run of decimal digits; fails on a non-digit. -/
def parseDigitsAux : List Char → Nat → Option Nat
  | [], acc => some acc
  | c :: cs, acc =>
      match digitVal? c with
      | none => none
      | some d => parseDigitsAux cs (acc * 10 + d)

/-- JS `BigInt(string)` on the decimal fragment: an optional leading
minus sign followed by decimal digits; the empty string is `0n`; any
other string (where JS `BigInt` throws) yields `none`. -/
def jsBigIntOfString (s : String) : Option Int :=
  match s.data with
  | [] => some 0
  | ['-'] => none
  | '-' :: cs => (parseDigitsAux cs 0).map (fun n => -(n : Int))
  | cs => (parseDigitsAux cs 0).map (fun n => (n : Int))

/-- `BigInt(x)` applied to a `string | number | bigint` value (line 45 of
`01_sqlite.ts`).  Strings are parsed as decimal integers; a string that
does not parse (where JS `BigInt` throws) yields `none`. -/
def jsBigInt : SqlVal → Option Int
  | .str s => jsBigIntOfString s
  | .num n => some n
  | .big n => some n

/-- Lines 37–45 of `01_sqlite.ts`: read the row under `'startingVersion'`,
default to `{ v: 0n }` when absent (`?? { v: 0n }`), then normalize with
`BigInt(...)`. -/
def readStartingVersion (store : KvStore) : Option Int :=
  jsBigInt (store.getD (.big 0))

/-- Lines 50–51 of `01_sqlite.ts`:
`event.transactions[event.transactions.length - 1].version! + 1n` for a
Data event; `none` for the other variants, for which the generator
performs no upsert.  (For a Data event with an empty batch the source
expression would throw; that case also yields `none` and is excluded by
the well-formedness of the stream, see `WellFormedEvents`.) -/
def nextStartingVersion? : StreamEvent → Option Int
  | .data _ txs => (txs.getLast?).map (fun t => t.version + 1)
  | _ => none

/-- Lines 53–55 of `01_sqlite.ts`: the upsert
`insert into kv(k, v) values('startingVersion', ?) on conflict(k) do
update set v = excluded.v`.  SQLite stores the bound `bigint` as an
integer. -/
def upsertKv (_store : KvStore) (v : Int) : KvStore :=
  some (.big v)

/-- Perform a pending upsert, if any, against the store. -/
def flushPending (store : KvStore) (pending : Option Int) : KvStore :=
  match pending with
  | none => store
  | some v => upsertKv store v

/-- The store update contributed by one delivered event: Data events
upsert their `nextStartingVersion`, other events leave the store alone. -/
def applyCommit (store : KvStore) (e : StreamEvent) : KvStore :=
  flushPending store (nextStartingVersion? e)

/-- The store after the upserts of a list of delivered events. -/
def applyCommits (store : KvStore) (es : List StreamEvent) : KvStore :=
  es.foldl applyCommit store

/-- The suspended state of the `streamAndPersistTransactions` generator:
the kv store, the upsert that the code after the current `yield` will
perform when the caller next resumes the generator, and the events the
underlying stream has yet to deliver. -/
structure GenState where
  store : KvStore
  pending : Option Int
  remaining : List StreamEvent
  deriving DecidableEq, Repr

/-- One `next()` call on the generator: resuming past the suspended
`yield event` first runs lines 49–56 (the pending upsert), then the
`for await` loop pulls the next event and suspends at `yield` again,
leaving that event's upsert pending.  When the stream is exhausted the
generator finishes after the last pending upsert. -/
def genNext (s : GenState) : Option StreamEvent × GenState :=
  let store := flushPending s.store s.pending
  match s.remaining with
  | [] => (none, { store := store, pending := none, remaining := [] })
  | e :: rest =>
      (some e, { store := store, pending := nextStartingVersion? e, remaining := rest })

/-- Pull the generator `n` times, collecting the yielded events and the
final suspended state. -/
def runPulls : GenState → Nat → List StreamEvent × GenState
  | s, 0 => ([], s)
  | s, n + 1 =>
      match genNext s with
      | (none, s') => ([], s')
      | (some e, s') =>
          let r := runPulls s' n
          (e :: r.1, r.2)

/-- The caller abandoning iteration while the generator is suspended at a
`yield` (`generator.return()` via `break`/`throw` in the `for await`
driver): the generator body has no `try`/`finally`, so the code after
`yield` — the pending upsert — never runs; the store is left as is. -/
def cancelRun (s : GenState) : KvStore :=
  s.store

/-- Lines 35–46 of `01_sqlite.ts`: starting the generator.  It reads the
checkpoint (defaulting to `0n`), normalizes it with `BigInt`, and opens
`streamTransactions` at that version.  `stream` abstracts
`streamTransactions` as a function from the requested `startingVersion`
to the event sequence it delivers; `none` is the JS `BigInt` throw on an
unparseable stored string. -/
def initGen (stream : Int → List StreamEvent) (store : KvStore) : Option GenState :=
  (readStartingVersion store).map fun sv =>
    { store := store, pending := none, remaining := stream sv }

/-- Outcome of the driver loop of `01_sqlite.ts`: either the sequence
ended normally, or the loop body threw (chain-id mismatch, or the crash
from indexing an empty batch), recording the kv store at that moment. -/
inductive RunResult where
  | ok (store : KvStore)
  | fatal (msg : String) (store : KvStore)
  deriving DecidableEq, Repr

/-- Lines 69–104 of `01_sqlite.ts`: the `for await` driver fused with the
generator it pulls.  Each iteration resumes the generator (performing
the pending upsert), receives the next event, and for Data events first
checks `event.chainId !== 2n` (throwing on mismatch, before the batch is
touched) and then reads `transactions[0]` and
`transactions[transactions.length - 1]` (throwing on an empty batch).  A
throw returns the generator without running the pending upsert, so the
store at the throw is the store as of the previous flush. -/
def callerLoop : KvStore → Option Int → List StreamEvent → RunResult
  | store, pending, [] => .ok (flushPending store pending)
  | store, pending, e :: rest =>
      let store := flushPending store pending
      match e with
      | .data cid txs =>
          if cid = 2 then
            match txs with
            | [] => .fatal "empty batch" store
            | _ :: _ => callerLoop store (nextStartingVersion? e) rest
          else
            .fatal "chainId mismatch" store
      | _ => callerLoop store none rest

/-- Whether an event satisfies the driver's checks: Data events must
report `chainId = 2` and a non-empty batch; other events always pass. -/
def goodEvent : StreamEvent → Bool
  | .data cid txs => cid == 2 && !txs.isEmpty
  | _ => true

/-- Modelled from the spec: `streamTransactions` (absent from the
repository slice) rejects an empty batch as a protocol violation rather
than delivering it, so every delivered Data event has a non-empty
batch. -/
def WellFormedEvents (es : List StreamEvent) : Prop :=
  ∀ e ∈ es, (match e with | .data _ txs => !txs.isEmpty | _ => true) = true

/-- The version of the first transaction of the first Data event of an
event sequence, when there is one. -/
def firstDeliveredVersion? : List StreamEvent → Option Int
  | [] => none
  | .data _ txs :: _ => (txs.head?).map (·.version)
  | _ :: rest => firstDeliveredVersion? rest

/-- Modelled from the spec: `streamTransactions`'s `startingVersion` is
inclusive — the first transaction it returns has
`version >= startingVersion`. -/
def StreamInclusive (stream : Int → List StreamEvent) : Prop :=
  ∀ sv v, firstDeliveredVersion? (stream sv) = some v → sv ≤ v

/-! ## Characterization of the generator's pull behaviour -/

theorem runPulls_yields (k : Nat) :
    ∀ (es : List StreamEvent) (store : KvStore) (p : Option Int),
      (runPulls ⟨store, p, es⟩ k).1 = es.take k := by
  induction k with
  | zero => intro es store p; simp [runPulls]
  | succ k ih =>
      intro es store p
      cases es with
      | nil => simp [runPulls, genNext]
      | cons e rest => simp [runPulls, genNext, ih]

theorem runPulls_state (k : Nat) :
    ∀ (es : List StreamEvent) (store : KvStore) (p : Option Int),
      (runPulls ⟨store, p, es⟩ (k + 1)).2 =
        ⟨applyCommits (flushPending store p) (es.take k),
         (es[k]?).bind nextStartingVersion?,
         es.drop (k + 1)⟩ := by
  induction k with
  | zero =>
      intro es store p
      cases es with
      | nil => simp [runPulls, genNext, applyCommits]
      | cons e rest => simp [runPulls, genNext, applyCommits]
  | succ k ih =>
      intro es store p
      cases es with
      | nil => simp [runPulls, genNext, applyCommits]
      | cons e rest =>
          have h : (runPulls ⟨store, p, e :: rest⟩ (k + 1 + 1)).2 =
              (runPulls ⟨flushPending store p, nextStartingVersion? e, rest⟩ (k + 1)).2 := rfl
          rw [h, ih]
          simp [applyCommits, applyCommit]

theorem applyCommits_of_no_data (store : KvStore) :
    ∀ (es : List StreamEvent), (∀ e ∈ es, e.isData = false) →
      applyCommits store es = store := by
  intro es
  induction es generalizing store with
  | nil => intro _; rfl
  | cons e rest ih =>
      intro h
      have he : e.isData = false := h e (List.mem_cons_self e rest)
      have hrest : ∀ e ∈ rest, e.isData = false := fun x hx => h x (List.mem_cons_of_mem e hx)
      have hc : applyCommit store e = store := by
        cases e with
        | data cid txs => simp [StreamEvent.isData] at he
        | error err => rfl
        | metadata md => rfl
        | status st => rfl
      calc applyCommits store (e :: rest)
          = applyCommits (applyCommit store e) rest := rfl
        _ = applyCommits store rest := by rw [hc]
        _ = store := ih store hrest

/-! ## Claims -/

/-- C1: for every Data event delivered by the resumable consumer, the
value upserted under `'startingVersion'` is the version of the last
transaction of that event's batch plus 1: once the pull following the
delivery of the `i`-th event has run the upsert for it, the store holds
exactly `lastVersionInBatch + 1`. -/
theorem checkpoint_is_last_version_plus_one (store : KvStore) (es : List StreamEvent)
    (i : Nat) (cid : Int) (txs : List Transaction) (t : Transaction)
    (he : es[i]? = some (.data cid txs)) (hl : txs.getLast? = some t) :
    ((runPulls ⟨store, none, es⟩ (i + 2)).2).store = some (.big (t.version + 1)) := by
  have hs := runPulls_state (i + 1) es store none
  have hstore : ((runPulls ⟨store, none, es⟩ (i + 2)).2).store =
      applyCommits store (es.take (i + 1)) := by
    rw [hs]
    rfl
  rw [hstore, List.take_succ, he]
  show applyCommits store (es.take i ++ [StreamEvent.data cid txs]) = _
  rw [applyCommits, List.foldl_append]
  simp [applyCommit, nextStartingVersion?, hl, flushPending, upsertKv]

/-- C1 witness: a batch of versions 100..104 results in checkpoint 105. -/
theorem checkpoint_is_last_version_plus_one_witness :
    ((runPulls ⟨none, none,
        [StreamEvent.data 2 [⟨100⟩, ⟨101⟩, ⟨102⟩, ⟨103⟩, ⟨104⟩]]⟩ 2).2).store =
      some (.big 105) :=
  checkpoint_is_last_version_plus_one none
    [StreamEvent.data 2 [⟨100⟩, ⟨101⟩, ⟨102⟩, ⟨103⟩, ⟨104⟩]]
    0 2 [⟨100⟩, ⟨101⟩, ⟨102⟩, ⟨103⟩, ⟨104⟩] ⟨104⟩ (by decide) (by decide)

/-- C2: the checkpoint upsert for a Data event happens only after that
event has been yielded: at the moment the `i`-th event (0-based) has just
been delivered to the caller — after `i + 1` pulls — the yielded events
are exactly the first `i + 1` events, but the store reflects only the
upserts of the first `i` events; the commit for the just-delivered batch
has not happened yet, so a crash there replays that batch, never skips
it. -/
theorem upsert_only_after_yield (store : KvStore) (es : List StreamEvent) (i : Nat) :
    (runPulls ⟨store, none, es⟩ (i + 1)).1 = es.take (i + 1) ∧
    ((runPulls ⟨store, none, es⟩ (i + 1)).2).store = applyCommits store (es.take i) := by
  refine ⟨runPulls_yields (i + 1) es store none, ?_⟩
  rw [runPulls_state i es store none]
  rfl

/-- C3: the consumer starts by reading the checkpoint under
`'startingVersion'` and opens the stream at that version, defaulting to
version 0 when no checkpoint is present; with a stored checkpoint `v`
(for any `v`, e.g. 100) the session's stream is opened at `v`, not 0. -/
theorem start_reads_checkpoint (stream : Int → List StreamEvent) (v : Int) :
    initGen stream none = some ⟨none, none, stream 0⟩ ∧
    initGen stream (some (.big v)) = some ⟨some (.big v), none, stream v⟩ := by
  constructor <;> rfl

/-- C9: the resumable consumer re-yields every event of the underlying
stream unchanged, in order, dropping, adding and modifying nothing: the
first `k` pulls deliver exactly the first `k` events (all of them once
`k` exceeds the stream's length). -/
theorem passthrough_unchanged (store : KvStore) (es : List StreamEvent) (k : Nat) :
    (runPulls ⟨store, none, es⟩ k).1 = es.take k :=
  runPulls_yields k es store none

/-- C4: round-trip of resume.  If a run of the consumer has committed
checkpoint `v` (the store holds `v` after some number of pulls) and then
stops, a fresh run against the same store reads back `v` and opens its
stream at `startingVersion = v`; by the inclusivity of
`streamTransactions` (spec-modelled, see `StreamInclusive`) the first
transaction the new session delivers has version `>= v`, never `< v`. -/
theorem resume_round_trip (stream : Int → List StreamEvent)
    (hincl : StreamInclusive stream) (store : KvStore) (es : List StreamEvent)
    (k : Nat) (v : Int)
    (hv : ((runPulls ⟨store, none, es⟩ k).2).store = some (.big v)) :
    initGen stream (((runPulls ⟨store, none, es⟩ k).2).store) =
      some ⟨some (.big v), none, stream v⟩ ∧
    ∀ w, firstDeliveredVersion? (stream v) = some w → v ≤ w := by
  rw [hv]
  exact ⟨rfl, fun w hw => hincl v w hw⟩

/-- C4 witness: a run over a single batch ending at version 4 commits
checkpoint 5; restarting against that store opens the stream at 5 and
the first delivered version (5) is not below the checkpoint. -/
theorem resume_round_trip_witness :
    initGen (fun sv => [StreamEvent.data 2 [⟨sv⟩]])
        (((runPulls ⟨none, none, [StreamEvent.data 2 [⟨4⟩]]⟩ 2).2).store) =
      some ⟨some (.big 5), none, [StreamEvent.data 2 [⟨5⟩]]⟩ ∧
    (5 : Int) ≤ 5 := by
  have h := resume_round_trip (fun sv => [StreamEvent.data 2 [⟨sv⟩]])
    (by
      intro sv v hv
      simp [firstDeliveredVersion?] at hv
      omega)
    none [StreamEvent.data 2 [⟨4⟩]] 2 5 (by decide)
  exact ⟨h.1, h.2 5 (by decide)⟩

theorem callerLoop_fatal_aux (cid : Int) (txs : List Transaction)
    (rest : List StreamEvent) (hcid : cid ≠ 2) :
    ∀ (pre : List StreamEvent) (store : KvStore) (p : Option Int),
      (∀ e ∈ pre, goodEvent e = true) →
      callerLoop store p (pre ++ .data cid txs :: rest) =
        .fatal "chainId mismatch" (applyCommits (flushPending store p) pre) := by
  intro pre
  induction pre with
  | nil =>
      intro store p _
      show callerLoop store p (.data cid txs :: rest) = _
      simp only [callerLoop]
      rw [if_neg hcid]
      rfl
  | cons e pre ih =>
      intro store p hgood
      have he : goodEvent e = true := hgood e (List.mem_cons_self e pre)
      have hpre : ∀ x ∈ pre, goodEvent x = true :=
        fun x hx => hgood x (List.mem_cons_of_mem e hx)
      cases e with
      | data c ts =>
          simp only [goodEvent, Bool.and_eq_true, beq_iff_eq, Bool.not_eq_true'] at he
          obtain ⟨hc, hts⟩ := he
          cases ts with
          | nil => simp [List.isEmpty] at hts
          | cons t ts' =>
              have step :
                  callerLoop store p
                      ((StreamEvent.data c (t :: ts') :: pre) ++ .data cid txs :: rest) =
                    callerLoop (flushPending store p)
                      (nextStartingVersion? (.data c (t :: ts')))
                      (pre ++ .data cid txs :: rest) := by
                simp only [List.cons_append, callerLoop]
                rw [if_pos hc]
                rfl
              rw [step, ih _ _ hpre]
              simp [applyCommits, applyCommit]
      | error err =>
          have step :
              callerLoop store p
                  ((StreamEvent.error err :: pre) ++ .data cid txs :: rest) =
                callerLoop (flushPending store p) none (pre ++ .data cid txs :: rest) := rfl
          rw [step, ih _ _ hpre]
          simp [applyCommits, applyCommit, nextStartingVersion?, flushPending]
      | metadata md =>
          have step :
              callerLoop store p
                  ((StreamEvent.metadata md :: pre) ++ .data cid txs :: rest) =
                callerLoop (flushPending store p) none (pre ++ .data cid txs :: rest) := rfl
          rw [step, ih _ _ hpre]
          simp [applyCommits, applyCommit, nextStartingVersion?, flushPending]
      | status st =>
          have step :
              callerLoop store p
                  ((StreamEvent.status st :: pre) ++ .data cid txs :: rest) =
                callerLoop (flushPending store p) none (pre ++ .data cid txs :: rest) := rfl
          rw [step, ih _ _ hpre]
          simp [applyCommits, applyCommit, nextStartingVersion?, flushPending]

/-- C5: when a Data event reports a `chainId` other than the expected
testnet value 2, the driver raises a fatal failure, the sequence ends
with that failure, and the store holds only the commits of the events
before the offending batch — no checkpoint is written for that batch or
any later event. -/
theorem chain_mismatch_is_fatal (store : KvStore) (pre : List StreamEvent)
    (cid : Int) (txs : List Transaction) (rest : List StreamEvent)
    (hpre : ∀ e ∈ pre, goodEvent e = true) (hcid : cid ≠ 2) :
    callerLoop store none (pre ++ .data cid txs :: rest) =
      .fatal "chainId mismatch" (applyCommits store pre) :=
  callerLoop_fatal_aux cid txs rest hcid pre store none hpre

/-- C5 witness: a good batch, then a batch with `chainId = 1`, then a
later good batch: the run ends fatally with only the first batch's
checkpoint (1) committed, the later batch's never. -/
theorem chain_mismatch_is_fatal_witness :
    callerLoop none none
        [StreamEvent.data 2 [⟨0⟩], StreamEvent.data 1 [⟨1⟩], StreamEvent.data 2 [⟨9⟩]] =
      .fatal "chainId mismatch" (some (.big 1)) := by
  have h := chain_mismatch_is_fatal none [StreamEvent.data 2 [⟨0⟩]] 1 [⟨1⟩]
    [StreamEvent.data 2 [⟨9⟩]] (by decide) (by decide)
  simpa [applyCommits, applyCommit, nextStartingVersion?, flushPending, upsertKv] using h

/-- C6: under the spec-modelled guarantee that `streamTransactions`
rejects empty batches (`WellFormedEvents`), every delivered Data event
has a non-empty batch, so reading the first transaction's version
(`transactions[0]`) and the last transaction's version
(`transactions[transactions.length - 1]`) never fails. -/
theorem delivered_batch_nonempty (es : List StreamEvent) (hwf : WellFormedEvents es)
    (cid : Int) (txs : List Transaction) (hmem : StreamEvent.data cid txs ∈ es) :
    txs.head?.isSome = true ∧ txs.getLast?.isSome = true := by
  have h := hwf _ hmem
  simp only [Bool.not_eq_true'] at h
  cases txs with
  | nil => simp [List.isEmpty] at h
  | cons t ts =>
      refine ⟨rfl, ?_⟩
      rw [List.getLast?_isSome]
      exact List.cons_ne_nil t ts

/-- C6 witness: a well-formed single-event stream whose batch holds
version 5; first and last access succeed. -/
theorem delivered_batch_nonempty_witness :
    (([⟨5⟩] : List Transaction).head?.isSome = true) ∧
    (([⟨5⟩] : List Transaction).getLast?.isSome = true) :=
  delivered_batch_nonempty [StreamEvent.data 2 [⟨5⟩]]
    (by
      intro e he
      rw [List.mem_singleton] at he
      subst he
      rfl)
    2 [⟨5⟩] (by decide)

theorem applyCommit_of_not_data (store : KvStore) (e : StreamEvent)
    (he : e.isData = false) : applyCommit store e = store := by
  cases e with
  | data cid txs => simp [StreamEvent.isData] at he
  | error err => rfl
  | metadata md => rfl
  | status st => rfl

theorem applyCommits_filter_data (store : KvStore) :
    ∀ (es : List StreamEvent),
      applyCommits store es = applyCommits store (es.filter StreamEvent.isData) := by
  intro es
  induction es generalizing store with
  | nil => rfl
  | cons e rest ih =>
      by_cases hd : e.isData = true
      · calc applyCommits store (e :: rest)
            = applyCommits (applyCommit store e) rest := rfl
          _ = applyCommits (applyCommit store e) (rest.filter StreamEvent.isData) :=
              ih (applyCommit store e)
          _ = applyCommits store ((e :: rest).filter StreamEvent.isData) := by
              rw [List.filter_cons_of_pos hd]
              rfl
      · have hd' : e.isData = false := by
          cases h : e.isData
          · rfl
          · exact absurd h hd
        calc applyCommits store (e :: rest)
            = applyCommits (applyCommit store e) rest := rfl
          _ = applyCommits store rest := by rw [applyCommit_of_not_data store e hd']
          _ = applyCommits store (rest.filter StreamEvent.isData) := ih store
          _ = applyCommits store ((e :: rest).filter StreamEvent.isData) := by
              rw [List.filter_cons_of_neg (by simp [hd'])]

/-- C7: only Data events cause a checkpoint write: in every run, over an
arbitrary stream interleaving data, error, metadata and status events,
the store after any number of pulls equals the fold of the upserts of
the Data events alone among the events whose upsert has run — every
non-data event leaves the checkpoint store exactly as it found it. -/
theorem non_data_leaves_store (store : KvStore) (es : List StreamEvent) (k : Nat) :
    ((runPulls ⟨store, none, es⟩ k).2).store =
      applyCommits store ((es.take (k - 1)).filter StreamEvent.isData) := by
  cases k with
  | zero => rfl
  | succ k =>
      rw [runPulls_state k es store none]
      exact applyCommits_filter_data store (es.take k)

/-- C8: if the caller cancels while the generator is suspended at the
`yield` of the `k`-th delivered event, the store holds only the commits
of the events before it — the upsert pending for the batch being
cancelled on (and every later one) is never performed. -/
theorem cancel_commits_nothing_further (store : KvStore) (es : List StreamEvent) (k : Nat) :
    cancelRun ((runPulls ⟨store, none, es⟩ k).2) = applyCommits store (es.take (k - 1)) := by
  cases k with
  | zero => rfl
  | succ k =>
      rw [runPulls_state k es store none]
      rfl

/-- C10: the consumer normalizes whatever representation the store
returns (`string | number | bigint`) with `BigInt` before use: the
`startingVersion` it opens the stream with is the exact integer value of
the stored checkpoint in every representation, and the absent-checkpoint
default is exactly 0. -/
theorem bigint_normalizes_checkpoint :
    readStartingVersion none = some 0 ∧
    (∀ n : Int, readStartingVersion (some (.big n)) = some n) ∧
    (∀ n : Int, readStartingVersion (some (.num n)) = some n) ∧
    (∀ (s : String) (n : Int), jsBigIntOfString s = some n →
      readStartingVersion (some (.str s)) = some n) :=
  ⟨rfl, fun _ => rfl, fun _ => rfl, fun _ _ h => h⟩

/-- C10 witness: checkpoint 100 stored as a bigint, a number or the
string `"100"` all produce `startingVersion = 100`; an absent checkpoint
produces 0. -/
theorem bigint_normalizes_checkpoint_witness :
    readStartingVersion none = some 0 ∧
    readStartingVersion (some (.big 100)) = some 100 ∧
    readStartingVersion (some (.num 100)) = some 100 ∧
    readStartingVersion (some (.str "100")) = some 100 :=
  ⟨bigint_normalizes_checkpoint.1,
   bigint_normalizes_checkpoint.2.1 100,
   bigint_normalizes_checkpoint.2.2.1 100,
   bigint_normalizes_checkpoint.2.2.2 "100" 100 (by decide)⟩
